import Mathlib

/-!
Verification of the 2D wave-equation simulator `wave_sim.c`.

The program is embedded shallowly: a time level of the field is a function
`ℕ → ℕ → ℝ` (the `double` values of the C program are modelled as real
numbers), each in-place pass of the per-step loop becomes a function from
grids to grids applied in the source's order, and the three `double**`
buffers together with the final pointer swap become a store `Fin 3 → Grid`
with three rotating labels.
-/

namespace WaveSim

/-- One time level of the field: the value stored at node `(i, j)`. -/
def Grid : Type := ℕ → ℕ → ℝ

/-- A freshly `initializeArray`ed buffer: every node holds `0.0`. -/
def zeroGrid : Grid := fun _ _ => 0

/-! ### The mesh and physical constants (the `#define`s of `wave_sim.c`) -/

/-- Macro `Lx`: length in x direction. -/
noncomputable def Lx : ℝ := 10e-6

/-- Macro `Ly`: length in y direction. -/
noncomputable def Ly : ℝ := 10e-6

/-- Macro `dx`: grid size in x direction. -/
noncomputable def dx : ℝ := 0.12e-6

/-- Macro `dy`: grid size in y direction. -/
noncomputable def dy : ℝ := 0.12e-6

/-- Macro `Nx`: number of nodes in x-direction, `(int)(Lx / dx) + 1`. -/
noncomputable def Nx : ℕ := ⌊Lx / dx⌋₊ + 1

/-- Macro `Ny`: number of nodes in y-direction, `(int)(Ly / dy) + 1`. -/
noncomputable def Ny : ℕ := ⌊Ly / dy⌋₊ + 1

/-- Macro `n_stop`: number of time steps. -/
def n_stop : ℕ := 150

/-- Macro `l`: wavelength. -/
noncomputable def l : ℝ := 1.0e-6

/-- Macro `w`: width of the pulse. -/
noncomputable def w : ℝ := 18.0e-15

/-- Macro `T0`: initial time. -/
noncomputable def T0 : ℝ := 4.0e-15

/-- Macro `c`: speed of light. -/
def c : ℝ := 299792458

/-- Macro `dt`: the time step, `1.0 / (c * sqrt(1/(dx*dx) + 1/(dy*dy)))`. -/
noncomputable def dt : ℝ :=
  1.0 / (c * Real.sqrt (1.0 / (dx * dx) + 1.0 / (dy * dy)))

/-- Macro `Ox`: Courant number in x-direction, `(c * dt) / dx`. -/
noncomputable def Ox : ℝ := (c * dt) / dx

/-- Macro `Oy`: Courant number in y-direction, `(c * dt) / dy`. -/
noncomputable def Oy : ℝ := (c * dt) / dy

/-- Macro `xs1`: x index of the source node. -/
def xs1 : ℕ := 50

/-- Macro `ys1`: y index of the source node. -/
def ys1 : ℕ := 50

/-- The amplitude factor of the source term: the literal `1 *` in the
source-node assignment of `main`. -/
def amplitude : ℝ := 1

/-- The source forcing, parametric in the amplitude factor `A`:
`A * exp(-pow((n*dt - T0)/(w/2), 2.0)) * sin(((2*M_PI*c)/l) * (n*dt))`. -/
noncomputable def sourceAmp (A : ℝ) (n : ℕ) : ℝ :=
  A * Real.exp (-(((n : ℝ) * dt - T0) / (w / 2)) ^ 2)
    * Real.sin (((2 * Real.pi * c) / l) * ((n : ℝ) * dt))

/-- The source forcing of `wave_sim.c` (amplitude factor `1`). -/
noncomputable def source (n : ℕ) : ℝ := sourceAmp amplitude n

/-! ### The passes of one iteration of the time-marching loop -/

/-- The interior pass: for every `1 ≤ ii < Nx'-1`, `1 ≤ jj < Ny'-1` the
5-point stencil is written into the next buffer; every other entry of the
next buffer keeps its previous contents `next0`. -/
def interiorSweep (Nx' Ny' : ℕ) (thx thy : ℝ) (cur prev next0 : Grid) : Grid :=
  fun i j =>
    if 1 ≤ i ∧ i < Nx' - 1 ∧ 1 ≤ j ∧ j < Ny' - 1 then
      2 * cur i j
        + thx * (cur (i + 1) j - 2 * cur i j + cur (i - 1) j)
        + thy * (cur i (j + 1) - 2 * cur i j + cur i (j - 1))
        - prev i j
    else next0 i j

/-- The source pass: `Un_p1[xs1][ys1]` is overwritten with the forcing
value `v`. -/
def sourceSweep (xs ys : ℕ) (v : ℝ) (next0 : Grid) : Grid :=
  fun i j => if i = xs ∧ j = ys then v else next0 i j

/-- The left-edge pass (`ii = 0`):
`Un_p1[0][jj] = Un0[1][jj] + Rx * (Un_p1[1][jj] - Un0[0][jj])`. -/
def leftSweep (Ny' : ℕ) (Rx : ℝ) (cur next0 : Grid) : Grid :=
  fun i j =>
    if i = 0 ∧ 1 ≤ j ∧ j < Ny' - 1 then
      cur 1 j + Rx * (next0 1 j - cur 0 j)
    else next0 i j

/-- The right-edge pass (`ii = Nx-1`):
`Un_p1[Nx-1][jj] = Un0[Nx-2][jj] + Rx * (Un_p1[Nx-2][jj] - Un0[Nx-1][jj])`. -/
def rightSweep (Nx' Ny' : ℕ) (Rx : ℝ) (cur next0 : Grid) : Grid :=
  fun i j =>
    if i = Nx' - 1 ∧ 1 ≤ j ∧ j < Ny' - 1 then
      cur (Nx' - 2) j + Rx * (next0 (Nx' - 2) j - cur (Nx' - 1) j)
    else next0 i j

/-- The top-edge pass (`jj = Ny-1`):
`Un_p1[ii][Ny-1] = Un0[ii][Ny-2] + Ry * (Un_p1[ii][Ny-2] - Un0[ii][Ny-1])`. -/
def topSweep (Nx' Ny' : ℕ) (Ry : ℝ) (cur next0 : Grid) : Grid :=
  fun i j =>
    if j = Ny' - 1 ∧ 1 ≤ i ∧ i < Nx' - 1 then
      cur i (Ny' - 2) + Ry * (next0 i (Ny' - 2) - cur i (Ny' - 1))
    else next0 i j

/-- The bottom-edge pass (`jj = 0`):
`Un_p1[ii][0] = Un0[ii][1] + Ry * (Un_p1[ii][1] - Un0[ii][0])`. -/
def bottomSweep (Nx' : ℕ) (Ry : ℝ) (cur next0 : Grid) : Grid :=
  fun i j =>
    if j = 0 ∧ 1 ≤ i ∧ i < Nx' - 1 then
      cur i 1 + Ry * (next0 i 1 - cur i 0)
    else next0 i j

/-- Overwrite the single node `(a, b)` of a grid with `v`. -/
def setCell (g : Grid) (a b : ℕ) (v : ℝ) : Grid :=
  fun i j => if i = a ∧ j = b then v else g i j

/-- The corner pass: the four in-place corner assignments of `main`, in
program order. -/
noncomputable def cornerSweep (Nx' Ny' : ℕ) (g0 : Grid) : Grid :=
  let g1 := setCell g0 0 0 (0.5 * (g0 1 0 + g0 0 1))
  let g2 := setCell g1 (Nx' - 1) 0 (0.5 * (g1 (Nx' - 2) 0 + g1 (Nx' - 1) 1))
  let g3 := setCell g2 (Nx' - 1) (Ny' - 1)
    (0.5 * (g2 (Nx' - 2) (Ny' - 1) + g2 (Nx' - 1) (Ny' - 2)))
  setCell g3 0 (Ny' - 1) (0.5 * (g3 0 (Ny' - 2) + g3 1 (Ny' - 1)))

/-- The per-run constants of the kernel: grid shape, source node, the two
squared Courant numbers, the two boundary coefficients and the forcing. -/
structure Coeffs where
  nx : ℕ
  ny : ℕ
  xs : ℕ
  ys : ℕ
  thx : ℝ
  thy : ℝ
  Rx : ℝ
  Ry : ℝ
  f : ℕ → ℝ

/-- The next buffer after the interior pass and the source pass of step
`n` (the state the boundary pass reads). -/
def interiorAndSource (P : Coeffs) (n : ℕ) (cur prev next0 : Grid) : Grid :=
  sourceSweep P.xs P.ys (P.f n)
    (interiorSweep P.nx P.ny P.thx P.thy cur prev next0)

/-- The four edge passes in program order (left, right, top, bottom),
applied to the next buffer `g`. -/
def edgesSweep (P : Coeffs) (cur g : Grid) : Grid :=
  bottomSweep P.nx P.Ry cur
    (topSweep P.nx P.ny P.Ry cur
      (rightSweep P.nx P.ny P.Rx cur
        (leftSweep P.ny P.Rx cur g)))

/-- The complete contents of the next buffer at the end of iteration `n`
of the time-marching loop (just before the pointer swap). -/
noncomputable def stepGrid (P : Coeffs) (n : ℕ) (cur prev next0 : Grid) : Grid :=
  cornerSweep P.nx P.ny (edgesSweep P cur (interiorAndSource P n cur prev next0))

/-- The constants `wave_sim.c` runs with. -/
noncomputable def progCoeffs : Coeffs where
  nx := Nx
  ny := Ny
  xs := xs1
  ys := ys1
  thx := Ox * Ox
  thy := Oy * Oy
  Rx := (c * dt - dx) / (c * dt + dx)
  Ry := (c * dt - dy) / (c * dt + dy)
  f := source

/-! ### The three rotating buffers -/

/-- The machine state of `main`: three allocated buffers, and the roles
the three pointer variables `Un_m1`, `Un0`, `Un_p1` currently give them. -/
structure SimState where
  store : Fin 3 → Grid
  prevIdx : Fin 3
  curIdx : Fin 3
  nextIdx : Fin 3

/-- Iteration `n` of the loop body up to (not including) the pointer
swap: only the buffer labelled `next` is written. -/
noncomputable def writeStep (P : Coeffs) (n : ℕ) (s : SimState) : SimState :=
  { s with
    store := Function.update s.store s.nextIdx
      (stepGrid P n (s.store s.curIdx) (s.store s.prevIdx) (s.store s.nextIdx)) }

/-- The pointer swap at the end of the loop body: `Un_m1` takes the old
`Un0`, `Un0` the old `Un_p1`, and `Un_p1` the old `Un_m1`; no buffer
contents move. -/
def rotate (s : SimState) : SimState :=
  { s with prevIdx := s.curIdx, curIdx := s.nextIdx, nextIdx := s.prevIdx }

/-- One full iteration of the time-marching loop. -/
noncomputable def simStep (P : Coeffs) (n : ℕ) (s : SimState) : SimState :=
  rotate (writeStep P n s)

/-- The machine state after the first `n` iterations, starting from `s`. -/
noncomputable def run (P : Coeffs) : ℕ → SimState → SimState
  | 0, s => s
  | n + 1, s => simStep P n (run P n s)

/-- The state at the start of the loop: three zero-initialized buffers,
`Un_m1 ↦ 0`, `Un0 ↦ 1`, `Un_p1 ↦ 2`. -/
def initState : SimState where
  store := fun _ => zeroGrid
  prevIdx := 0
  curIdx := 1
  nextIdx := 2

/-- The field snapshot printed at the end of iteration `n`: after the
swap closing iteration `n` it sits in the buffer labelled `current`. -/
noncomputable def snap (P : Coeffs) (n : ℕ) : Grid :=
  (run P (n + 1) initState).store (run P (n + 1) initState).curIdx

/-- The buffer contents `(previous, current, next)` at the start of
iteration `n`, as a pure recurrence (used to compute `snap` pointwise). -/
noncomputable def bufs (P : Coeffs) : ℕ → Grid × Grid × Grid
  | 0 => (zeroGrid, zeroGrid, zeroGrid)
  | n + 1 =>
    let t := bufs P n
    (t.2.1, stepGrid P n t.2.1 t.1 t.2.2, t.1)

/-! ### Evaluation lemmas for the passes -/

theorem Lx_div_dx : Lx / dx = 250 / 3 := by
  rw [Lx, dx]; norm_num

theorem Nx_eq : Nx = 84 := by
  have h : ⌊Lx / dx⌋₊ = 83 := by
    rw [Lx_div_dx, Nat.floor_eq_iff (by norm_num)]
    norm_num
  rw [Nx, h]

theorem Ny_eq : Ny = 84 := by
  have hd : Ly / dy = 250 / 3 := by rw [Ly, dy]; norm_num
  have h : ⌊Ly / dy⌋₊ = 83 := by
    rw [hd, Nat.floor_eq_iff (by norm_num)]
    norm_num
  rw [Ny, h]

theorem interiorSweep_in {Nx' Ny' : ℕ} {thx thy : ℝ} {cur prev next0 : Grid}
    {i j : ℕ} (h : 1 ≤ i ∧ i < Nx' - 1 ∧ 1 ≤ j ∧ j < Ny' - 1) :
    interiorSweep Nx' Ny' thx thy cur prev next0 i j =
      2 * cur i j
        + thx * (cur (i + 1) j - 2 * cur i j + cur (i - 1) j)
        + thy * (cur i (j + 1) - 2 * cur i j + cur i (j - 1))
        - prev i j := by
  unfold interiorSweep; rw [if_pos h]

theorem interiorSweep_out {Nx' Ny' : ℕ} {thx thy : ℝ} {cur prev next0 : Grid}
    {i j : ℕ} (h : ¬(1 ≤ i ∧ i < Nx' - 1 ∧ 1 ≤ j ∧ j < Ny' - 1)) :
    interiorSweep Nx' Ny' thx thy cur prev next0 i j = next0 i j := by
  unfold interiorSweep; rw [if_neg h]

theorem sourceSweep_at {xs ys : ℕ} {v : ℝ} {next0 : Grid} :
    sourceSweep xs ys v next0 xs ys = v := by
  simp [sourceSweep]

theorem sourceSweep_other {xs ys : ℕ} {v : ℝ} {next0 : Grid} {i j : ℕ}
    (h : ¬(i = xs ∧ j = ys)) : sourceSweep xs ys v next0 i j = next0 i j := by
  unfold sourceSweep; rw [if_neg h]

theorem leftSweep_at {Ny' : ℕ} {Rx : ℝ} {cur next0 : Grid} {j : ℕ}
    (h : 1 ≤ j ∧ j < Ny' - 1) :
    leftSweep Ny' Rx cur next0 0 j = cur 1 j + Rx * (next0 1 j - cur 0 j) := by
  unfold leftSweep; rw [if_pos ⟨rfl, h.1, h.2⟩]

theorem leftSweep_other {Ny' : ℕ} {Rx : ℝ} {cur next0 : Grid} {i j : ℕ}
    (h : ¬(i = 0 ∧ 1 ≤ j ∧ j < Ny' - 1)) :
    leftSweep Ny' Rx cur next0 i j = next0 i j := by
  unfold leftSweep; rw [if_neg h]

theorem rightSweep_at {Nx' Ny' : ℕ} {Rx : ℝ} {cur next0 : Grid} {j : ℕ}
    (h : 1 ≤ j ∧ j < Ny' - 1) :
    rightSweep Nx' Ny' Rx cur next0 (Nx' - 1) j =
      cur (Nx' - 2) j + Rx * (next0 (Nx' - 2) j - cur (Nx' - 1) j) := by
  unfold rightSweep; rw [if_pos ⟨rfl, h.1, h.2⟩]

theorem rightSweep_other {Nx' Ny' : ℕ} {Rx : ℝ} {cur next0 : Grid} {i j : ℕ}
    (h : ¬(i = Nx' - 1 ∧ 1 ≤ j ∧ j < Ny' - 1)) :
    rightSweep Nx' Ny' Rx cur next0 i j = next0 i j := by
  unfold rightSweep; rw [if_neg h]

theorem topSweep_at {Nx' Ny' : ℕ} {Ry : ℝ} {cur next0 : Grid} {i : ℕ}
    (h : 1 ≤ i ∧ i < Nx' - 1) :
    topSweep Nx' Ny' Ry cur next0 i (Ny' - 1) =
      cur i (Ny' - 2) + Ry * (next0 i (Ny' - 2) - cur i (Ny' - 1)) := by
  unfold topSweep; rw [if_pos ⟨rfl, h.1, h.2⟩]

theorem topSweep_other {Nx' Ny' : ℕ} {Ry : ℝ} {cur next0 : Grid} {i j : ℕ}
    (h : ¬(j = Ny' - 1 ∧ 1 ≤ i ∧ i < Nx' - 1)) :
    topSweep Nx' Ny' Ry cur next0 i j = next0 i j := by
  unfold topSweep; rw [if_neg h]

theorem bottomSweep_at {Nx' : ℕ} {Ry : ℝ} {cur next0 : Grid} {i : ℕ}
    (h : 1 ≤ i ∧ i < Nx' - 1) :
    bottomSweep Nx' Ry cur next0 i 0 =
      cur i 1 + Ry * (next0 i 1 - cur i 0) := by
  unfold bottomSweep; rw [if_pos ⟨rfl, h.1, h.2⟩]

theorem bottomSweep_other {Nx' : ℕ} {Ry : ℝ} {cur next0 : Grid} {i j : ℕ}
    (h : ¬(j = 0 ∧ 1 ≤ i ∧ i < Nx' - 1)) :
    bottomSweep Nx' Ry cur next0 i j = next0 i j := by
  unfold bottomSweep; rw [if_neg h]

theorem setCell_at {g : Grid} {a b : ℕ} {v : ℝ} : setCell g a b v a b = v := by
  simp [setCell]

theorem setCell_other {g : Grid} {a b : ℕ} {v : ℝ} {i j : ℕ}
    (h : ¬(i = a ∧ j = b)) : setCell g a b v i j = g i j := by
  unfold setCell; rw [if_neg h]

theorem cornerSweep_other {Nx' Ny' : ℕ} {g : Grid} {i j : ℕ}
    (h1 : ¬(i = 0 ∧ j = 0)) (h2 : ¬(i = Nx' - 1 ∧ j = 0))
    (h3 : ¬(i = Nx' - 1 ∧ j = Ny' - 1)) (h4 : ¬(i = 0 ∧ j = Ny' - 1)) :
    cornerSweep Nx' Ny' g i j = g i j := by
  unfold cornerSweep
  rw [setCell_other h4, setCell_other h3, setCell_other h2, setCell_other h1]

theorem cornerSweep_c1 {Nx' Ny' : ℕ} (h3x : 3 ≤ Nx') (h3y : 3 ≤ Ny') (g : Grid) :
    cornerSweep Nx' Ny' g 0 0 = 0.5 * (g 1 0 + g 0 1) := by
  simp only [cornerSweep]
  rw [setCell_other (show ¬((0:ℕ) = 0 ∧ (0:ℕ) = Ny' - 1) by omega),
    setCell_other (show ¬((0:ℕ) = Nx' - 1 ∧ (0:ℕ) = Ny' - 1) by omega),
    setCell_other (show ¬((0:ℕ) = Nx' - 1 ∧ (0:ℕ) = 0) by omega), setCell_at]

theorem cornerSweep_c2 {Nx' Ny' : ℕ} (h3x : 3 ≤ Nx') (h3y : 3 ≤ Ny') (g : Grid) :
    cornerSweep Nx' Ny' g (Nx' - 1) 0 = 0.5 * (g (Nx' - 2) 0 + g (Nx' - 1) 1) := by
  simp only [cornerSweep]
  rw [setCell_other (show ¬(Nx' - 1 = 0 ∧ (0:ℕ) = Ny' - 1) by omega),
    setCell_other (show ¬(Nx' - 1 = Nx' - 1 ∧ (0:ℕ) = Ny' - 1) by omega),
    setCell_at,
    setCell_other (show ¬(Nx' - 2 = 0 ∧ (0:ℕ) = 0) by omega),
    setCell_other (show ¬(Nx' - 1 = 0 ∧ (1:ℕ) = 0) by omega)]

theorem cornerSweep_c3 {Nx' Ny' : ℕ} (h3x : 3 ≤ Nx') (h3y : 3 ≤ Ny') (g : Grid) :
    cornerSweep Nx' Ny' g (Nx' - 1) (Ny' - 1)
      = 0.5 * (g (Nx' - 2) (Ny' - 1) + g (Nx' - 1) (Ny' - 2)) := by
  simp only [cornerSweep]
  rw [setCell_other (show ¬(Nx' - 1 = 0 ∧ Ny' - 1 = Ny' - 1) by omega),
    setCell_at,
    setCell_other (show ¬(Nx' - 2 = Nx' - 1 ∧ Ny' - 1 = 0) by omega),
    setCell_other (show ¬(Nx' - 1 = Nx' - 1 ∧ Ny' - 2 = 0) by omega),
    setCell_other (show ¬(Nx' - 2 = 0 ∧ Ny' - 1 = 0) by omega),
    setCell_other (show ¬(Nx' - 1 = 0 ∧ Ny' - 2 = 0) by omega)]

theorem cornerSweep_c4 {Nx' Ny' : ℕ} (h3x : 3 ≤ Nx') (h3y : 3 ≤ Ny') (g : Grid) :
    cornerSweep Nx' Ny' g 0 (Ny' - 1) = 0.5 * (g 0 (Ny' - 2) + g 1 (Ny' - 1)) := by
  simp only [cornerSweep]
  rw [setCell_at,
    setCell_other (show ¬((0:ℕ) = Nx' - 1 ∧ Ny' - 2 = Ny' - 1) by omega),
    setCell_other (show ¬((1:ℕ) = Nx' - 1 ∧ Ny' - 1 = Ny' - 1) by omega),
    setCell_other (show ¬((0:ℕ) = Nx' - 1 ∧ Ny' - 2 = 0) by omega),
    setCell_other (show ¬((1:ℕ) = Nx' - 1 ∧ Ny' - 1 = 0) by omega),
    setCell_other (show ¬((0:ℕ) = 0 ∧ Ny' - 2 = 0) by omega),
    setCell_other (show ¬((1:ℕ) = 0 ∧ Ny' - 1 = 0) by omega)]

/-! ### C1: the interior stencil -/

/-- C1: after the interior pass of any step (before source injection), the
next-level value at every interior node `(i, j)` equals the 5-point
leapfrog stencil `2*cur - prev + θx*(…) + θy*(…)` with
`θx = (c·dt/dx)²`, `θy = (c·dt/dy)²`, a pure function of the two prior
time levels `cur` and `prev` only (the old next-buffer contents `next0`
do not appear). -/
theorem C1_interior_stencil (cur prev next0 : Grid) (i j : ℕ)
    (hi1 : 1 ≤ i) (hi2 : i ≤ Nx - 2) (hj1 : 1 ≤ j) (hj2 : j ≤ Ny - 2) :
    interiorSweep Nx Ny (Ox * Ox) (Oy * Oy) cur prev next0 i j =
      2 * cur i j
        + ((c * dt) / dx) ^ 2 * (cur (i + 1) j - 2 * cur i j + cur (i - 1) j)
        + ((c * dt) / dy) ^ 2 * (cur i (j + 1) - 2 * cur i j + cur i (j - 1))
        - prev i j := by
  have hx := Nx_eq
  have hy := Ny_eq
  rw [interiorSweep_in (by omega)]
  rw [Ox, Oy]
  ring

/-- Witness for C1: at node (1,1) of all-zero levels the stencil value is 0. -/
theorem C1_interior_stencil_witness :
    interiorSweep Nx Ny (Ox * Ox) (Oy * Oy) zeroGrid zeroGrid zeroGrid 1 1 = 0 := by
  have hx := Nx_eq
  have hy := Ny_eq
  rw [C1_interior_stencil zeroGrid zeroGrid zeroGrid 1 1 (le_refl 1) (by omega)
    (le_refl 1) (by omega)]
  simp only [zeroGrid]
  ring

/-! ### C4: the corner averages -/

/-- C4: the four corners are written strictly after the four edge passes,
and at the end of every step each corner of the next level equals exactly
`0.5 * (sum of its two adjacent edge-resolved neighbours)`. -/
theorem C4_corner_mean (n : ℕ) (cur prev next0 g : Grid)
    (hg : g = stepGrid progCoeffs n cur prev next0) :
    g 0 0 = 0.5 * (g 1 0 + g 0 1) ∧
    g (Nx - 1) 0 = 0.5 * (g (Nx - 2) 0 + g (Nx - 1) 1) ∧
    g (Nx - 1) (Ny - 1) = 0.5 * (g (Nx - 2) (Ny - 1) + g (Nx - 1) (Ny - 2)) ∧
    g 0 (Ny - 1) = 0.5 * (g 0 (Ny - 2) + g 1 (Ny - 1)) := by
  have hx := Nx_eq
  have hy := Ny_eq
  have h3x : 3 ≤ Nx := by omega
  have h3y : 3 ≤ Ny := by omega
  subst hg
  simp only [stepGrid, progCoeffs]
  refine ⟨?_, ?_, ?_, ?_⟩
  · rw [cornerSweep_c1 h3x h3y,
      cornerSweep_other (show ¬((1:ℕ) = 0 ∧ (0:ℕ) = 0) by omega)
        (show ¬((1:ℕ) = Nx - 1 ∧ (0:ℕ) = 0) by omega)
        (show ¬((1:ℕ) = Nx - 1 ∧ (0:ℕ) = Ny - 1) by omega)
        (show ¬((1:ℕ) = 0 ∧ (0:ℕ) = Ny - 1) by omega),
      cornerSweep_other (show ¬((0:ℕ) = 0 ∧ (1:ℕ) = 0) by omega)
        (show ¬((0:ℕ) = Nx - 1 ∧ (1:ℕ) = 0) by omega)
        (show ¬((0:ℕ) = Nx - 1 ∧ (1:ℕ) = Ny - 1) by omega)
        (show ¬((0:ℕ) = 0 ∧ (1:ℕ) = Ny - 1) by omega)]
  · rw [cornerSweep_c2 h3x h3y,
      cornerSweep_other (show ¬(Nx - 2 = 0 ∧ (0:ℕ) = 0) by omega)
        (show ¬(Nx - 2 = Nx - 1 ∧ (0:ℕ) = 0) by omega)
        (show ¬(Nx - 2 = Nx - 1 ∧ (0:ℕ) = Ny - 1) by omega)
        (show ¬(Nx - 2 = 0 ∧ (0:ℕ) = Ny - 1) by omega),
      cornerSweep_other (show ¬(Nx - 1 = 0 ∧ (1:ℕ) = 0) by omega)
        (show ¬(Nx - 1 = Nx - 1 ∧ (1:ℕ) = 0) by omega)
        (show ¬(Nx - 1 = Nx - 1 ∧ (1:ℕ) = Ny - 1) by omega)
        (show ¬(Nx - 1 = 0 ∧ (1:ℕ) = Ny - 1) by omega)]
  · rw [cornerSweep_c3 h3x h3y,
      cornerSweep_other (show ¬(Nx - 2 = 0 ∧ Ny - 1 = 0) by omega)
        (show ¬(Nx - 2 = Nx - 1 ∧ Ny - 1 = 0) by omega)
        (show ¬(Nx - 2 = Nx - 1 ∧ Ny - 1 = Ny - 1) by omega)
        (show ¬(Nx - 2 = 0 ∧ Ny - 1 = Ny - 1) by omega),
      cornerSweep_other (show ¬(Nx - 1 = 0 ∧ Ny - 2 = 0) by omega)
        (show ¬(Nx - 1 = Nx - 1 ∧ Ny - 2 = 0) by omega)
        (show ¬(Nx - 1 = Nx - 1 ∧ Ny - 2 = Ny - 1) by omega)
        (show ¬(Nx - 1 = 0 ∧ Ny - 2 = Ny - 1) by omega)]
  · rw [cornerSweep_c4 h3x h3y,
      cornerSweep_other (show ¬((0:ℕ) = 0 ∧ Ny - 2 = 0) by omega)
        (show ¬((0:ℕ) = Nx - 1 ∧ Ny - 2 = 0) by omega)
        (show ¬((0:ℕ) = Nx - 1 ∧ Ny - 2 = Ny - 1) by omega)
        (show ¬((0:ℕ) = 0 ∧ Ny - 2 = Ny - 1) by omega),
      cornerSweep_other (show ¬((1:ℕ) = 0 ∧ Ny - 1 = 0) by omega)
        (show ¬((1:ℕ) = Nx - 1 ∧ Ny - 1 = 0) by omega)
        (show ¬((1:ℕ) = Nx - 1 ∧ Ny - 1 = Ny - 1) by omega)
        (show ¬((1:ℕ) = 0 ∧ Ny - 1 = Ny - 1) by omega)]

/-- Witness for C4: the corner law instantiated at step 0 from all-zero
levels. -/
theorem C4_corner_mean_witness :
    stepGrid progCoeffs 0 zeroGrid zeroGrid zeroGrid 0 0 =
      0.5 * (stepGrid progCoeffs 0 zeroGrid zeroGrid zeroGrid 1 0
        + stepGrid progCoeffs 0 zeroGrid zeroGrid zeroGrid 0 1) :=
  (C4_corner_mean 0 zeroGrid zeroGrid zeroGrid _ rfl).1

/-! ### C2: the four edge passes -/

/-- C2: after the boundary edge pass of any step, the right edge satisfies
`next[Nx-1,j] = cur[Nx-2,j] + Rx*(next[Nx-2,j] - cur[Nx-1,j])` with
`Rx = (c·dt-dx)/(c·dt+dx)` for every interior `j`, and the symmetric
formulas hold on the left, top and bottom edges (`Ry` for the y-normal
edges); each edge reads only interior values of the post-interior-pass,
post-source next level `I` and its own current-level boundary values. -/
theorem C2_edge_formulas (n : ℕ) (cur prev next0 I E : Grid)
    (hI : I = interiorAndSource progCoeffs n cur prev next0)
    (hE : E = edgesSweep progCoeffs cur I)
    (i j : ℕ) (hj1 : 1 ≤ j) (hj2 : j ≤ Ny - 2) (hi1 : 1 ≤ i) (hi2 : i ≤ Nx - 2) :
    E (Nx - 1) j = cur (Nx - 2) j
        + (c * dt - dx) / (c * dt + dx) * (I (Nx - 2) j - cur (Nx - 1) j) ∧
    E 0 j = cur 1 j + (c * dt - dx) / (c * dt + dx) * (I 1 j - cur 0 j) ∧
    E i (Ny - 1) = cur i (Ny - 2)
        + (c * dt - dy) / (c * dt + dy) * (I i (Ny - 2) - cur i (Ny - 1)) ∧
    E i 0 = cur i 1 + (c * dt - dy) / (c * dt + dy) * (I i 1 - cur i 0) := by
  have hx := Nx_eq
  have hy := Ny_eq
  subst hI
  subst hE
  simp only [edgesSweep, progCoeffs]
  refine ⟨?_, ?_, ?_, ?_⟩
  · rw [bottomSweep_other (show ¬(j = 0 ∧ 1 ≤ Nx - 1 ∧ Nx - 1 < Nx - 1) by omega),
      topSweep_other (show ¬(j = Ny - 1 ∧ 1 ≤ Nx - 1 ∧ Nx - 1 < Nx - 1) by omega),
      rightSweep_at ⟨hj1, by omega⟩,
      leftSweep_other (show ¬(Nx - 2 = 0 ∧ 1 ≤ j ∧ j < Ny - 1) by omega)]
  · rw [bottomSweep_other (show ¬(j = 0 ∧ 1 ≤ (0:ℕ) ∧ (0:ℕ) < Nx - 1) by omega),
      topSweep_other (show ¬(j = Ny - 1 ∧ 1 ≤ (0:ℕ) ∧ (0:ℕ) < Nx - 1) by omega),
      rightSweep_other (show ¬((0:ℕ) = Nx - 1 ∧ 1 ≤ j ∧ j < Ny - 1) by omega),
      leftSweep_at ⟨hj1, by omega⟩]
  · rw [bottomSweep_other (show ¬(Ny - 1 = 0 ∧ 1 ≤ i ∧ i < Nx - 1) by omega),
      topSweep_at ⟨hi1, by omega⟩,
      rightSweep_other (show ¬(i = Nx - 1 ∧ 1 ≤ Ny - 2 ∧ Ny - 2 < Ny - 1) by omega),
      leftSweep_other (show ¬(i = 0 ∧ 1 ≤ Ny - 2 ∧ Ny - 2 < Ny - 1) by omega)]
  · rw [bottomSweep_at ⟨hi1, by omega⟩,
      topSweep_other (show ¬((1:ℕ) = Ny - 1 ∧ 1 ≤ i ∧ i < Nx - 1) by omega),
      rightSweep_other (show ¬(i = Nx - 1 ∧ 1 ≤ (1:ℕ) ∧ (1:ℕ) < Ny - 1) by omega),
      leftSweep_other (show ¬(i = 0 ∧ 1 ≤ (1:ℕ) ∧ (1:ℕ) < Ny - 1) by omega)]

/-- Witness for C2: the right-edge formula at `j = 1`, step 0, all-zero
levels. -/
theorem C2_edge_formulas_witness :
    edgesSweep progCoeffs zeroGrid
        (interiorAndSource progCoeffs 0 zeroGrid zeroGrid zeroGrid) (Nx - 1) 1
      = zeroGrid (Nx - 2) 1 + (c * dt - dx) / (c * dt + dx)
          * (interiorAndSource progCoeffs 0 zeroGrid zeroGrid zeroGrid (Nx - 2) 1
            - zeroGrid (Nx - 1) 1) := by
  have hx := Nx_eq
  have hy := Ny_eq
  exact (C2_edge_formulas 0 zeroGrid zeroGrid zeroGrid _ _ rfl rfl 1 1
    (le_refl 1) (by omega) (le_refl 1) (by omega)).1

/-! ### C3: the source injection -/

/-- C3: for every step `n < n_stop`, after the source pass the next-level
value at the source node `(xs1, ys1)` equals the closed-form forcing
`amplitude * exp(-((n·dt - T0)/(w/2))²) * sin((2π·c/l)·n·dt)`, whatever
the interior stencil wrote there (`cur`, `prev`, `next0` arbitrary), and
this value persists unchanged through the edge and corner passes, i.e. it
is still the value at `(xs1, ys1)` at the end of the step. -/
theorem C3_source_override (n : ℕ) (cur prev next0 : Grid) (hn : n < n_stop) :
    interiorAndSource progCoeffs n cur prev next0 xs1 ys1
        = amplitude * Real.exp (-((((n : ℝ) * dt - T0) / (w / 2)) ^ 2))
            * Real.sin (2 * Real.pi * c / l * ((n : ℝ) * dt)) ∧
    stepGrid progCoeffs n cur prev next0 xs1 ys1
        = amplitude * Real.exp (-((((n : ℝ) * dt - T0) / (w / 2)) ^ 2))
            * Real.sin (2 * Real.pi * c / l * ((n : ℝ) * dt)) := by
  have hx := Nx_eq
  have hy := Ny_eq
  have hxs : xs1 = 50 := rfl
  have hys : ys1 = 50 := rfl
  have hsrc : interiorAndSource progCoeffs n cur prev next0 xs1 ys1
      = amplitude * Real.exp (-((((n : ℝ) * dt - T0) / (w / 2)) ^ 2))
        * Real.sin (2 * Real.pi * c / l * ((n : ℝ) * dt)) := by
    simp only [interiorAndSource, progCoeffs]
    rw [sourceSweep_at]
    simp only [source, sourceAmp]
  refine ⟨hsrc, ?_⟩
  simp only [stepGrid, progCoeffs]
  rw [cornerSweep_other (show ¬(xs1 = 0 ∧ ys1 = 0) by omega)
      (show ¬(xs1 = Nx - 1 ∧ ys1 = 0) by omega)
      (show ¬(xs1 = Nx - 1 ∧ ys1 = Ny - 1) by omega)
      (show ¬(xs1 = 0 ∧ ys1 = Ny - 1) by omega)]
  simp only [edgesSweep]
  rw [bottomSweep_other (show ¬(ys1 = 0 ∧ 1 ≤ xs1 ∧ xs1 < Nx - 1) by omega),
    topSweep_other (show ¬(ys1 = Ny - 1 ∧ 1 ≤ xs1 ∧ xs1 < Nx - 1) by omega),
    rightSweep_other (show ¬(xs1 = Nx - 1 ∧ 1 ≤ ys1 ∧ ys1 < Ny - 1) by omega),
    leftSweep_other (show ¬(xs1 = 0 ∧ 1 ≤ ys1 ∧ ys1 < Ny - 1) by omega)]
  exact hsrc

/-- Witness for C3: the source law at step 0 from all-zero levels. -/
theorem C3_source_override_witness :
    interiorAndSource progCoeffs 0 zeroGrid zeroGrid zeroGrid xs1 ys1
        = amplitude * Real.exp (-(((((0:ℕ) : ℝ) * dt - T0) / (w / 2)) ^ 2))
            * Real.sin (2 * Real.pi * c / l * (((0:ℕ) : ℝ) * dt)) ∧
    stepGrid progCoeffs 0 zeroGrid zeroGrid zeroGrid xs1 ys1
        = amplitude * Real.exp (-(((((0:ℕ) : ℝ) * dt - T0) / (w / 2)) ^ 2))
            * Real.sin (2 * Real.pi * c / l * (((0:ℕ) : ℝ) * dt)) :=
  C3_source_override 0 zeroGrid zeroGrid zeroGrid (by norm_num [n_stop])

/-! ### C5 and C10: the three buffers and the pointer swap -/

/-- The three pointer variables name three pairwise different buffers. -/
def labelsDistinct (s : SimState) : Prop :=
  s.prevIdx ≠ s.curIdx ∧ s.curIdx ≠ s.nextIdx ∧ s.prevIdx ≠ s.nextIdx

theorem labelsDistinct_simStep {P : Coeffs} {n : ℕ} {s : SimState}
    (h : labelsDistinct s) : labelsDistinct (simStep P n s) := by
  obtain ⟨h1, h2, h3⟩ := h
  exact ⟨h2, Ne.symm h3, Ne.symm h1⟩

theorem labelsDistinct_run (P : Coeffs) (n : ℕ) :
    labelsDistinct (run P n initState) := by
  induction n with
  | zero =>
    exact show labelsDistinct initState from ⟨by decide, by decide, by decide⟩
  | succ m ih => exact labelsDistinct_simStep ih

/-- C5: the end-of-step rotation is a pure relabeling: buffer contents are
untouched, the old previous buffer becomes the next target, current
becomes previous and next becomes current; consequently across any number
of iterations the three labels stay pairwise distinct (exactly the 3
allocated buffers are reused), and the buffer labelled current after
iteration `n` is the one that was labelled next before it. -/
theorem C5_rotation_relabels (P : Coeffs) (n : ℕ) :
    (∀ s : SimState, (rotate s).store = s.store ∧
      (rotate s).nextIdx = s.prevIdx ∧ (rotate s).prevIdx = s.curIdx ∧
      (rotate s).curIdx = s.nextIdx) ∧
    (run P (n + 1) initState).curIdx = (run P n initState).nextIdx ∧
    (run P (n + 1) initState).prevIdx = (run P n initState).curIdx ∧
    (run P (n + 1) initState).nextIdx = (run P n initState).prevIdx ∧
    ((run P n initState).prevIdx ≠ (run P n initState).curIdx ∧
      (run P n initState).curIdx ≠ (run P n initState).nextIdx ∧
      (run P n initState).prevIdx ≠ (run P n initState).nextIdx) := by
  refine ⟨fun s => ⟨rfl, rfl, rfl, rfl⟩, rfl, rfl, rfl, labelsDistinct_run P n⟩

/-- C10: the passes of one loop iteration write only the buffer labelled
next: the current and previous buffers — indeed every slot other than the
next slot — hold the same contents after the passes as before them. -/
theorem C10_only_next_written (P : Coeffs) (n : ℕ) (s : SimState)
    (hcn : s.curIdx ≠ s.nextIdx) (hpn : s.prevIdx ≠ s.nextIdx) :
    (writeStep P n s).store s.curIdx = s.store s.curIdx ∧
    (writeStep P n s).store s.prevIdx = s.store s.prevIdx ∧
    ∀ k : Fin 3, k ≠ s.nextIdx → (writeStep P n s).store k = s.store k := by
  refine ⟨?_, ?_, fun k hk => ?_⟩
  · show Function.update s.store s.nextIdx _ s.curIdx = s.store s.curIdx
    exact Function.update_noteq hcn _ _
  · show Function.update s.store s.nextIdx _ s.prevIdx = s.store s.prevIdx
    exact Function.update_noteq hpn _ _
  · show Function.update s.store s.nextIdx _ k = s.store k
    exact Function.update_noteq hk _ _

/-- Witness for C10 at the initial state. -/
theorem C10_only_next_written_witness :
    (writeStep progCoeffs 0 initState).store initState.curIdx
        = initState.store initState.curIdx ∧
    (writeStep progCoeffs 0 initState).store initState.prevIdx
        = initState.store initState.prevIdx ∧
    (writeStep progCoeffs 0 initState).store 0 = initState.store 0 := by
  have h := C10_only_next_written progCoeffs 0 initState (by decide) (by decide)
  exact ⟨h.1, h.2.1, h.2.2 0 (by decide)⟩

/-! ### C6: the zero-source invariant -/

/-- Every node of the grid holds `0`. -/
def allZero (g : Grid) : Prop := ∀ i j, g i j = 0

theorem sourceAmp_zero (n : ℕ) : sourceAmp 0 n = 0 := by
  simp [sourceAmp]

theorem stepGrid_allZero {P : Coeffs} {n : ℕ} {cur prev next0 : Grid}
    (hf : P.f n = 0) (hc : allZero cur) (hp : allZero prev)
    (hn0 : allZero next0) : allZero (stepGrid P n cur prev next0) := by
  simp only [allZero] at hc hp hn0
  intro i j
  simp [stepGrid, cornerSweep, edgesSweep, interiorAndSource, setCell,
    bottomSweep, topSweep, rightSweep, leftSweep, sourceSweep, interiorSweep,
    hf, hc, hp, hn0]

/-- With a zero forcing and all-zero initial buffers, every buffer stays
all-zero through every iteration. -/
theorem run_allZero {P : Coeffs} (hf : ∀ m, P.f m = 0) (n : ℕ) :
    ∀ k : Fin 3, allZero ((run P n initState).store k) := by
  induction n with
  | zero => intro k i j; rfl
  | succ m ih =>
    intro k
    have hstore : (run P (m + 1) initState).store
        = Function.update (run P m initState).store (run P m initState).nextIdx
            (stepGrid P m ((run P m initState).store (run P m initState).curIdx)
              ((run P m initState).store (run P m initState).prevIdx)
              ((run P m initState).store (run P m initState).nextIdx)) := rfl
    rw [hstore]
    rcases eq_or_ne k (run P m initState).nextIdx with hk | hk
    · subst hk
      rw [Function.update_same]
      exact stepGrid_allZero (hf m) (ih _) (ih _) (ih _)
    · rw [Function.update_noteq hk]
      exact ih k

/-- The program constants with the source amplitude forced to zero. -/
noncomputable def zeroAmpCoeffs : Coeffs := { progCoeffs with f := sourceAmp 0 }

/-- C6: with the source amplitude forced to zero and all three time levels
initially zero, after every full iteration (interior pass, source
injection, edge and corner passes, rotation) all three buffers are still
identically zero, for every number of steps `n`, every buffer `k` and
every node `(i, j)`. -/
theorem C6_zero_invariant (n : ℕ) (k : Fin 3) (i j : ℕ) :
    (run zeroAmpCoeffs n initState).store k i j = 0 :=
  run_allZero (fun m => sourceAmp_zero m) n k i j

/-! ### C7: the 7×7 first-step scenario -/

theorem source_zero : source 0 = 0 := by
  simp [source, sourceAmp]

/-- The program's derived scalars on the spec's 7×7 scenario grid with the
source at (3,3). -/
noncomputable def sevenCoeffs : Coeffs where
  nx := 7
  ny := 7
  xs := 3
  ys := 3
  thx := Ox * Ox
  thy := Oy * Oy
  Rx := (c * dt - dx) / (c * dt + dx)
  Ry := (c * dt - dy) / (c * dt + dy)
  f := source

/-- The next level of the 7×7 scenario after the interior pass and the
source injection of the first step (`n = 0`), before the boundary pass,
starting from all-zero levels. -/
noncomputable def post7 : Grid :=
  interiorAndSource sevenCoeffs 0 zeroGrid zeroGrid zeroGrid

theorem post7_src : post7 3 3 = source 0 := by
  show sourceSweep 3 3 (source 0)
    (interiorSweep 7 7 (Ox * Ox) (Oy * Oy) zeroGrid zeroGrid zeroGrid) 3 3
      = source 0
  exact sourceSweep_at

/-- C7 counterexample: at `n = 0` the forcing contains `sin 0 = 0`, so the
injected value at node (3,3) is exactly zero — node (3,3) is not a
nonzero node, contradicting the claim that it is the only nonzero node
after the source-injection pass. -/
theorem C7_counterexample : ¬ post7 3 3 ≠ 0 := by
  intro h
  exact h (post7_src.trans source_zero)

/-- C7 amended: in the 7×7 scenario, after the interior pass and the
source injection of the first step every node other than (3,3) is zero,
and node (3,3) holds the closed-form forcing at `n = 0` — whose value is
`0`, because the `sin` factor vanishes at `n = 0`; so no node is nonzero. -/
theorem C7_only_source_written :
    (∀ i j : ℕ, ¬(i = 3 ∧ j = 3) → post7 i j = 0) ∧
    post7 3 3 = source 0 ∧ source 0 = 0 := by
  refine ⟨fun i j h => ?_, post7_src, source_zero⟩
  show sourceSweep 3 3 (source 0)
    (interiorSweep 7 7 (Ox * Ox) (Oy * Oy) zeroGrid zeroGrid zeroGrid) i j = 0
  rw [sourceSweep_other h]
  unfold interiorSweep
  split_ifs
  · simp [zeroGrid]
  · rfl

/-- Witness for the amended C7 at nodes (0,0) and (3,3). -/
theorem C7_only_source_written_witness :
    post7 0 0 = 0 ∧ post7 3 3 = source 0 :=
  ⟨C7_only_source_written.1 0 0 (by decide), C7_only_source_written.2.1⟩

/-! ### C8: configuration validation -/

/-- The compile-time configuration surface of `wave_sim.c` that §7 of the
spec constrains: domain lengths, spacings, source coordinates, step
count. -/
structure Config where
  CLx : ℝ
  CLy : ℝ
  Cdx : ℝ
  Cdy : ℝ
  Cxs : ℕ
  Cys : ℕ
  Cnstop : ℕ

/-- Node count in x derived as in the source: `(int)(Lx / dx) + 1`. -/
noncomputable def Config.CNx (g : Config) : ℕ := ⌊g.CLx / g.Cdx⌋₊ + 1

/-- Node count in y derived as in the source: `(int)(Ly / dy) + 1`. -/
noncomputable def Config.CNy (g : Config) : ℕ := ⌊g.CLy / g.Cdy⌋₊ + 1

/-- The configuration precondition the spec states: source strictly inside
the interior, positive spacings and positive domain sizes. -/
def validConfig (g : Config) : Prop :=
  0 < g.Cxs ∧ g.Cxs < g.CNx - 1 ∧ 0 < g.Cys ∧ g.Cys < g.CNy - 1 ∧
    0 < g.Cdx ∧ 0 < g.Cdy ∧ 0 < g.CLx ∧ 0 < g.CLy

/-- The number of iterations of the time-marching loop `main` executes for
a configuration: `main` allocates and zero-initializes the three buffers
and then enters `for (n = 0; n < n_stop; n++)` directly — no validation
of the configuration precedes the loop, so all `n_stop` iterations run
whatever the configuration is. -/
def loopIterations (g : Config) : ℕ := g.Cnstop

/-- The configuration baked into `wave_sim.c`. -/
noncomputable def progConfig : Config where
  CLx := Lx
  CLy := Ly
  Cdx := dx
  Cdy := dy
  Cxs := xs1
  Cys := ys1
  Cnstop := n_stop

/-- The shipped configuration with the source moved onto the boundary
(`xs = 0`) — a configuration the spec says must be rejected. -/
noncomputable def badConfig : Config :=
  { progConfig with Cxs := 0 }

/-- C8: the spec requires configurations with an out-of-interior source or
non-positive spacings/domain sizes to be rejected before the step loop,
but `main` performs no validation at all: with the source moved to the
boundary (`xs = 0`, an invalid configuration) the loop still executes all
150 iterations. The one configuration actually shipped is valid. -/
theorem C8_no_validation_before_loop :
    ¬ validConfig badConfig ∧ loopIterations badConfig = 150 ∧
    validConfig progConfig := by
  have hNx : progConfig.CNx = 84 := by
    show ⌊Lx / dx⌋₊ + 1 = 84
    exact Nx_eq
  have hNy : progConfig.CNy = 84 := by
    show ⌊Ly / dy⌋₊ + 1 = 84
    exact Ny_eq
  refine ⟨fun h => ?_, rfl, ?_⟩
  · exact absurd h.1 (by norm_num [badConfig, progConfig])
  · have hbx : progConfig.Cxs = 50 := rfl
    have hby : progConfig.Cys = 50 := rfl
    refine ⟨by omega, by omega, by omega, by omega, ?_, ?_, ?_, ?_⟩
    · show (0:ℝ) < dx
      rw [dx]; norm_num
    · show (0:ℝ) < dy
      rw [dy]; norm_num
    · show (0:ℝ) < Lx
      rw [Lx]; norm_num
    · show (0:ℝ) < Ly
      rw [Ly]; norm_num

/-! ### C9: causality. Distances and the wavefront-arrival bound -/

/-- `|a - b|` over ℕ. -/
def dist1 (a b : ℕ) : ℕ := (a - b) + (b - a)

/-- Manhattan distance between nodes `(i, j)` and `(a, b)`. -/
def manDist (i j a b : ℕ) : ℕ := dist1 i a + dist1 j b

/-- Chebyshev distance between nodes `(i, j)` and `(a, b)`. -/
def chebDist (i j a b : ℕ) : ℕ := max (dist1 i a) (dist1 j b)

/-- Earliest step at which a node can first become nonzero, for a run
whose forcing vanishes at step 0: an interior node at Manhattan distance
`m` from the source can first be written at step `m + 1`; an edge node
one step earlier, because the edge pass reads same-step interior values;
a corner one step earlier still, because the corner pass reads same-step
edge values. -/
def tau (P : Coeffs) (i j : ℕ) : ℕ :=
  if (i = 0 ∨ i = P.nx - 1) ∧ (j = 0 ∨ j = P.ny - 1) then
    manDist i j P.xs P.ys - 1
  else if i = 0 ∨ i = P.nx - 1 ∨ j = 0 ∨ j = P.ny - 1 then
    manDist i j P.xs P.ys
  else
    manDist i j P.xs P.ys + 1

/-- The source lies strictly inside the interior of a grid of at least
3×3 nodes. -/
def srcInterior (P : Coeffs) : Prop :=
  3 ≤ P.nx ∧ 3 ≤ P.ny ∧ 1 ≤ P.xs ∧ P.xs ≤ P.nx - 2 ∧
    1 ≤ P.ys ∧ P.ys ≤ P.ny - 2

theorem tau_interior {P : Coeffs} {i j : ℕ} (h1 : 1 ≤ i) (h2 : i < P.nx - 1)
    (h3 : 1 ≤ j) (h4 : j < P.ny - 1) :
    tau P i j = manDist i j P.xs P.ys + 1 := by
  unfold tau
  rw [if_neg (by omega), if_neg (by omega)]

theorem tau_edge {P : Coeffs} {i j : ℕ}
    (hb : i = 0 ∨ i = P.nx - 1 ∨ j = 0 ∨ j = P.ny - 1)
    (hnc : ¬((i = 0 ∨ i = P.nx - 1) ∧ (j = 0 ∨ j = P.ny - 1))) :
    tau P i j = manDist i j P.xs P.ys := by
  unfold tau
  rw [if_neg hnc, if_pos hb]

theorem tau_corner {P : Coeffs} {i j : ℕ}
    (hc : (i = 0 ∨ i = P.nx - 1) ∧ (j = 0 ∨ j = P.ny - 1)) :
    tau P i j = manDist i j P.xs P.ys - 1 := by
  unfold tau
  rw [if_pos hc]

theorem cheb_le_tau {P : Coeffs} (hP : srcInterior P) (i j : ℕ) :
    chebDist i j P.xs P.ys ≤ tau P i j := by
  obtain ⟨h3x, h3y, hxs1, hxs2, hys1, hys2⟩ := hP
  unfold tau
  split_ifs with h1 h2
  · obtain ⟨hi, hj⟩ := h1
    simp only [chebDist, manDist, dist1]
    exact max_le (by omega) (by omega)
  · simp only [chebDist, manDist, dist1]
    exact max_le (by omega) (by omega)
  · simp only [chebDist, manDist, dist1]
    exact max_le (by omega) (by omega)

theorem tau_pos {P : Coeffs} (hP : srcInterior P) (i j : ℕ) :
    1 ≤ tau P i j := by
  obtain ⟨h3x, h3y, hxs1, hxs2, hys1, hys2⟩ := hP
  unfold tau
  split_ifs with h1 h2
  · obtain ⟨hi, hj⟩ := h1
    simp only [manDist, dist1]
    omega
  · simp only [manDist, dist1]
    omega
  · omega

/-- After the interior pass and the source injection of step `n`, a node
can be nonzero only from step `tau` on, given that the two prior levels
and the stale next-buffer contents obey the corresponding bounds. -/
theorem interiorAndSource_support {P : Coeffs} (hP : srcInterior P) {n : ℕ}
    (hf : P.f 0 = 0) {cur prev next0 : Grid}
    (hc : ∀ a b, cur a b ≠ 0 → tau P a b + 1 ≤ n)
    (hp : ∀ a b, prev a b ≠ 0 → tau P a b + 2 ≤ n)
    (hx0 : ∀ a b, next0 a b ≠ 0 → tau P a b + 3 ≤ n) :
    ∀ i j, interiorAndSource P n cur prev next0 i j ≠ 0 → tau P i j ≤ n := by
  obtain ⟨h3x, h3y, hxs1, hxs2, hys1, hys2⟩ := hP
  intro i j hij
  by_cases hsrc : i = P.xs ∧ j = P.ys
  · obtain ⟨rfl, rfl⟩ := hsrc
    have hval : interiorAndSource P n cur prev next0 P.xs P.ys = P.f n :=
      sourceSweep_at
    rw [hval] at hij
    have hn1 : 1 ≤ n := by
      rcases Nat.eq_zero_or_pos n with h0 | h1
      · exact absurd (h0 ▸ hf) hij
      · exact h1
    rw [tau_interior (by omega) (by omega) (by omega) (by omega)]
    simp only [manDist, dist1]
    omega
  · have hval : interiorAndSource P n cur prev next0 i j
        = interiorSweep P.nx P.ny P.thx P.thy cur prev next0 i j :=
      sourceSweep_other hsrc
    rw [hval] at hij
    by_cases hin : 1 ≤ i ∧ i < P.nx - 1 ∧ 1 ≤ j ∧ j < P.ny - 1
    · obtain ⟨h1, h2, h3, h4⟩ := hin
      rw [interiorSweep_in ⟨h1, h2, h3, h4⟩] at hij
      rw [tau_interior h1 h2 h3 h4]
      by_contra hcon
      push_neg at hcon
      have z0 : cur i j = 0 := by
        by_contra hz
        have hb := hc i j hz
        rw [tau_interior h1 h2 h3 h4] at hb
        omega
      have z1 : cur (i + 1) j = 0 := by
        by_contra hz
        have hb := hc (i + 1) j hz
        by_cases he : i + 1 = P.nx - 1
        · rw [tau_edge (by omega) (by omega)] at hb
          simp only [manDist, dist1] at hb hcon
          omega
        · rw [tau_interior (by omega) (by omega) h3 h4] at hb
          simp only [manDist, dist1] at hb hcon
          omega
      have z2 : cur (i - 1) j = 0 := by
        by_contra hz
        have hb := hc (i - 1) j hz
        by_cases he : i - 1 = 0
        · rw [tau_edge (by omega) (by omega)] at hb
          simp only [manDist, dist1] at hb hcon
          omega
        · rw [tau_interior (by omega) (by omega) h3 h4] at hb
          simp only [manDist, dist1] at hb hcon
          omega
      have z3 : cur i (j + 1) = 0 := by
        by_contra hz
        have hb := hc i (j + 1) hz
        by_cases he : j + 1 = P.ny - 1
        · rw [tau_edge (by omega) (by omega)] at hb
          simp only [manDist, dist1] at hb hcon
          omega
        · rw [tau_interior h1 h2 (by omega) (by omega)] at hb
          simp only [manDist, dist1] at hb hcon
          omega
      have z4 : cur i (j - 1) = 0 := by
        by_contra hz
        have hb := hc i (j - 1) hz
        by_cases he : j - 1 = 0
        · rw [tau_edge (by omega) (by omega)] at hb
          simp only [manDist, dist1] at hb hcon
          omega
        · rw [tau_interior h1 h2 (by omega) (by omega)] at hb
          simp only [manDist, dist1] at hb hcon
          omega
      have z5 : prev i j = 0 := by
        by_contra hz
        have hb := hp i j hz
        rw [tau_interior h1 h2 h3 h4] at hb
        omega
      apply hij
      rw [z0, z1, z2, z3, z4, z5]
      ring
    · rw [interiorSweep_out hin] at hij
      have hb := hx0 i j hij
      omega

/-- After the four edge passes of step `n`, a node can be nonzero only
from step `tau` on: each edge cell reads its interior neighbour of the
same step (one Manhattan step closer to the source) and current-level
values of the previous step. -/
theorem edgesSweep_support {P : Coeffs} (hP : srcInterior P) {n : ℕ}
    {cur I : Grid}
    (hc : ∀ a b, cur a b ≠ 0 → tau P a b + 1 ≤ n)
    (hI : ∀ a b, I a b ≠ 0 → tau P a b ≤ n) :
    ∀ i j, edgesSweep P cur I i j ≠ 0 → tau P i j ≤ n := by
  obtain ⟨h3x, h3y, hxs1, hxs2, hys1, hys2⟩ := hP
  intro i j hij
  simp only [edgesSweep] at hij
  by_cases hbot : j = 0 ∧ 1 ≤ i ∧ i < P.nx - 1
  · obtain ⟨rfl, hi1, hi2⟩ := hbot
    rw [bottomSweep_at ⟨hi1, hi2⟩,
      topSweep_other (show ¬((1:ℕ) = P.ny - 1 ∧ 1 ≤ i ∧ i < P.nx - 1) by omega),
      rightSweep_other
        (show ¬(i = P.nx - 1 ∧ 1 ≤ (1:ℕ) ∧ (1:ℕ) < P.ny - 1) by omega),
      leftSweep_other
        (show ¬(i = 0 ∧ 1 ≤ (1:ℕ) ∧ (1:ℕ) < P.ny - 1) by omega)] at hij
    rw [tau_edge (by omega) (by omega)]
    have hreads : cur i 1 ≠ 0 ∨ I i 1 ≠ 0 ∨ cur i 0 ≠ 0 := by
      by_contra hz
      push_neg at hz
      obtain ⟨hz1, hz2, hz3⟩ := hz
      apply hij
      rw [hz1, hz2, hz3]
      ring
    rcases hreads with hz | hz | hz
    · have hb := hc i 1 hz
      rw [tau_interior hi1 hi2 (by omega) (by omega)] at hb
      simp only [manDist, dist1] at hb ⊢
      omega
    · have hb := hI i 1 hz
      rw [tau_interior hi1 hi2 (by omega) (by omega)] at hb
      simp only [manDist, dist1] at hb ⊢
      omega
    · have hb := hc i 0 hz
      rw [tau_edge (by omega) (by omega)] at hb
      simp only [manDist, dist1] at hb ⊢
      omega
  · rw [bottomSweep_other hbot] at hij
    by_cases htop : j = P.ny - 1 ∧ 1 ≤ i ∧ i < P.nx - 1
    · obtain ⟨hj, hi1, hi2⟩ := htop
      subst hj
      rw [topSweep_at ⟨hi1, hi2⟩,
        rightSweep_other
          (show ¬(i = P.nx - 1 ∧ 1 ≤ P.ny - 2 ∧ P.ny - 2 < P.ny - 1) by omega),
        leftSweep_other
          (show ¬(i = 0 ∧ 1 ≤ P.ny - 2 ∧ P.ny - 2 < P.ny - 1) by omega)] at hij
      rw [tau_edge (by omega) (by omega)]
      have hreads : cur i (P.ny - 2) ≠ 0 ∨ I i (P.ny - 2) ≠ 0 ∨
          cur i (P.ny - 1) ≠ 0 := by
        by_contra hz
        push_neg at hz
        obtain ⟨hz1, hz2, hz3⟩ := hz
        apply hij
        rw [hz1, hz2, hz3]
        ring
      rcases hreads with hz | hz | hz
      · have hb := hc i (P.ny - 2) hz
        rw [tau_interior hi1 hi2 (by omega) (by omega)] at hb
        simp only [manDist, dist1] at hb ⊢
        omega
      · have hb := hI i (P.ny - 2) hz
        rw [tau_interior hi1 hi2 (by omega) (by omega)] at hb
        simp only [manDist, dist1] at hb ⊢
        omega
      · have hb := hc i (P.ny - 1) hz
        rw [tau_edge (by omega) (by omega)] at hb
        simp only [manDist, dist1] at hb ⊢
        omega
    · rw [topSweep_other htop] at hij
      by_cases hr : i = P.nx - 1 ∧ 1 ≤ j ∧ j < P.ny - 1
      · obtain ⟨hi, hj1, hj2⟩ := hr
        subst hi
        rw [rightSweep_at ⟨hj1, hj2⟩,
          leftSweep_other
            (show ¬(P.nx - 2 = 0 ∧ 1 ≤ j ∧ j < P.ny - 1) by omega)] at hij
        rw [tau_edge (by omega) (by omega)]
        have hreads : cur (P.nx - 2) j ≠ 0 ∨ I (P.nx - 2) j ≠ 0 ∨
            cur (P.nx - 1) j ≠ 0 := by
          by_contra hz
          push_neg at hz
          obtain ⟨hz1, hz2, hz3⟩ := hz
          apply hij
          rw [hz1, hz2, hz3]
          ring
        rcases hreads with hz | hz | hz
        · have hb := hc (P.nx - 2) j hz
          rw [tau_interior (by omega) (by omega) hj1 hj2] at hb
          simp only [manDist, dist1] at hb ⊢
          omega
        · have hb := hI (P.nx - 2) j hz
          rw [tau_interior (by omega) (by omega) hj1 hj2] at hb
          simp only [manDist, dist1] at hb ⊢
          omega
        · have hb := hc (P.nx - 1) j hz
          rw [tau_edge (by omega) (by omega)] at hb
          simp only [manDist, dist1] at hb ⊢
          omega
      · rw [rightSweep_other hr] at hij
        by_cases hl : i = 0 ∧ 1 ≤ j ∧ j < P.ny - 1
        · obtain ⟨hi, hj1, hj2⟩ := hl
          subst hi
          rw [leftSweep_at ⟨hj1, hj2⟩] at hij
          rw [tau_edge (by omega) (by omega)]
          have hreads : cur 1 j ≠ 0 ∨ I 1 j ≠ 0 ∨ cur 0 j ≠ 0 := by
            by_contra hz
            push_neg at hz
            obtain ⟨hz1, hz2, hz3⟩ := hz
            apply hij
            rw [hz1, hz2, hz3]
            ring
          rcases hreads with hz | hz | hz
          · have hb := hc 1 j hz
            rw [tau_interior (by omega) (by omega) hj1 hj2] at hb
            simp only [manDist, dist1] at hb ⊢
            omega
          · have hb := hI 1 j hz
            rw [tau_interior (by omega) (by omega) hj1 hj2] at hb
            simp only [manDist, dist1] at hb ⊢
            omega
          · have hb := hc 0 j hz
            rw [tau_edge (by omega) (by omega)] at hb
            simp only [manDist, dist1] at hb ⊢
            omega
        · rw [leftSweep_other hl] at hij
          exact hI i j hij

/-- After a complete iteration of the loop body, a node can be nonzero
only from step `tau` on. -/
theorem stepGrid_support {P : Coeffs} (hP : srcInterior P) {n : ℕ}
    (hf : P.f 0 = 0) {cur prev next0 : Grid}
    (hc : ∀ a b, cur a b ≠ 0 → tau P a b + 1 ≤ n)
    (hp : ∀ a b, prev a b ≠ 0 → tau P a b + 2 ≤ n)
    (hx0 : ∀ a b, next0 a b ≠ 0 → tau P a b + 3 ≤ n) :
    ∀ i j, stepGrid P n cur prev next0 i j ≠ 0 → tau P i j ≤ n := by
  have hIs := interiorAndSource_support hP hf hc hp hx0
  have hEs := edgesSweep_support hP hc hIs
  obtain ⟨h3x, h3y, hxs1, hxs2, hys1, hys2⟩ := hP
  intro i j hij
  simp only [stepGrid] at hij
  by_cases h00 : i = 0 ∧ j = 0
  · obtain ⟨rfl, rfl⟩ := h00
    rw [cornerSweep_c1 h3x h3y] at hij
    rw [tau_corner (by omega)]
    have hreads :
        edgesSweep P cur (interiorAndSource P n cur prev next0) 1 0 ≠ 0 ∨
        edgesSweep P cur (interiorAndSource P n cur prev next0) 0 1 ≠ 0 := by
      by_contra hz
      push_neg at hz
      obtain ⟨hz1, hz2⟩ := hz
      exact hij (by rw [hz1, hz2]; ring)
    rcases hreads with hz | hz
    · have hb := hEs 1 0 hz
      rw [tau_edge (by omega) (by omega)] at hb
      simp only [manDist, dist1] at hb ⊢
      omega
    · have hb := hEs 0 1 hz
      rw [tau_edge (by omega) (by omega)] at hb
      simp only [manDist, dist1] at hb ⊢
      omega
  · by_cases h10 : i = P.nx - 1 ∧ j = 0
    · obtain ⟨hi, rfl⟩ := h10
      subst hi
      rw [cornerSweep_c2 h3x h3y] at hij
      rw [tau_corner (by omega)]
      have hreads :
          edgesSweep P cur (interiorAndSource P n cur prev next0) (P.nx - 2) 0 ≠ 0 ∨
          edgesSweep P cur (interiorAndSource P n cur prev next0) (P.nx - 1) 1 ≠ 0 := by
        by_contra hz
        push_neg at hz
        obtain ⟨hz1, hz2⟩ := hz
        exact hij (by rw [hz1, hz2]; ring)
      rcases hreads with hz | hz
      · have hb := hEs (P.nx - 2) 0 hz
        rw [tau_edge (by omega) (by omega)] at hb
        simp only [manDist, dist1] at hb ⊢
        omega
      · have hb := hEs (P.nx - 1) 1 hz
        rw [tau_edge (by omega) (by omega)] at hb
        simp only [manDist, dist1] at hb ⊢
        omega
    · by_cases h11 : i = P.nx - 1 ∧ j = P.ny - 1
      · obtain ⟨hi, hj⟩ := h11
        subst hi
        subst hj
        rw [cornerSweep_c3 h3x h3y] at hij
        rw [tau_corner (by omega)]
        have hreads :
            edgesSweep P cur (interiorAndSource P n cur prev next0)
              (P.nx - 2) (P.ny - 1) ≠ 0 ∨
            edgesSweep P cur (interiorAndSource P n cur prev next0)
              (P.nx - 1) (P.ny - 2) ≠ 0 := by
          by_contra hz
          push_neg at hz
          obtain ⟨hz1, hz2⟩ := hz
          exact hij (by rw [hz1, hz2]; ring)
        rcases hreads with hz | hz
        · have hb := hEs (P.nx - 2) (P.ny - 1) hz
          rw [tau_edge (by omega) (by omega)] at hb
          simp only [manDist, dist1] at hb ⊢
          omega
        · have hb := hEs (P.nx - 1) (P.ny - 2) hz
          rw [tau_edge (by omega) (by omega)] at hb
          simp only [manDist, dist1] at hb ⊢
          omega
      · by_cases h01 : i = 0 ∧ j = P.ny - 1
        · obtain ⟨rfl, hj⟩ := h01
          subst hj
          rw [cornerSweep_c4 h3x h3y] at hij
          rw [tau_corner (by omega)]
          have hreads :
              edgesSweep P cur (interiorAndSource P n cur prev next0)
                0 (P.ny - 2) ≠ 0 ∨
              edgesSweep P cur (interiorAndSource P n cur prev next0)
                1 (P.ny - 1) ≠ 0 := by
            by_contra hz
            push_neg at hz
            obtain ⟨hz1, hz2⟩ := hz
            exact hij (by rw [hz1, hz2]; ring)
          rcases hreads with hz | hz
          · have hb := hEs 0 (P.ny - 2) hz
            rw [tau_edge (by omega) (by omega)] at hb
            simp only [manDist, dist1] at hb ⊢
            omega
          · have hb := hEs 1 (P.ny - 1) hz
            rw [tau_edge (by omega) (by omega)] at hb
            simp only [manDist, dist1] at hb ⊢
            omega
        · rw [cornerSweep_other h00 h10 h11 h01] at hij
          exact hEs i j hij

/-- The support invariant along the buffer recurrence: the current level
at the start of iteration `n` obeys `tau + 1 ≤ n` wherever nonzero, the
previous level `tau + 2 ≤ n`, the stale next contents `tau + 3 ≤ n`. -/
theorem bufs_support {P : Coeffs} (hP : srcInterior P) (hf : P.f 0 = 0) :
    ∀ n, (∀ a b, (bufs P n).2.1 a b ≠ 0 → tau P a b + 1 ≤ n) ∧
      (∀ a b, (bufs P n).1 a b ≠ 0 → tau P a b + 2 ≤ n) ∧
      (∀ a b, (bufs P n).2.2 a b ≠ 0 → tau P a b + 3 ≤ n) := by
  intro n
  induction n with
  | zero =>
    exact ⟨fun a b hab => absurd rfl hab, fun a b hab => absurd rfl hab,
      fun a b hab => absurd rfl hab⟩
  | succ m ih =>
    obtain ⟨ihc, ihp, ihx⟩ := ih
    refine ⟨fun a b hab => ?_, fun a b hab => ?_, fun a b hab => ?_⟩
    · have hab' : stepGrid P m (bufs P m).2.1 (bufs P m).1 (bufs P m).2.2 a b ≠ 0 :=
        hab
      have := stepGrid_support hP hf ihc ihp ihx a b hab'
      omega
    · have hab' : (bufs P m).2.1 a b ≠ 0 := hab
      have := ihc a b hab'
      omega
    · have hab' : (bufs P m).1 a b ≠ 0 := hab
      have := ihp a b hab'
      omega

/-- The pointer-rotating run and the pure buffer recurrence agree: after
`n` iterations the buffers labelled previous, current and next hold
exactly the three components of `bufs P n`. -/
theorem run_bufs (P : Coeffs) (n : ℕ) :
    (run P n initState).store (run P n initState).prevIdx = (bufs P n).1 ∧
    (run P n initState).store (run P n initState).curIdx = (bufs P n).2.1 ∧
    (run P n initState).store (run P n initState).nextIdx = (bufs P n).2.2 := by
  induction n with
  | zero => exact ⟨rfl, rfl, rfl⟩
  | succ m ih =>
    obtain ⟨ih1, ih2, ih3⟩ := ih
    obtain ⟨hd1, hd2, hd3⟩ := labelsDistinct_run P m
    refine ⟨?_, ?_, ?_⟩
    · show Function.update (run P m initState).store (run P m initState).nextIdx
        (stepGrid P m ((run P m initState).store (run P m initState).curIdx)
          ((run P m initState).store (run P m initState).prevIdx)
          ((run P m initState).store (run P m initState).nextIdx))
        (run P m initState).curIdx = (bufs P (m + 1)).1
      rw [Function.update_noteq hd2]
      exact ih2
    · show Function.update (run P m initState).store (run P m initState).nextIdx
        (stepGrid P m ((run P m initState).store (run P m initState).curIdx)
          ((run P m initState).store (run P m initState).prevIdx)
          ((run P m initState).store (run P m initState).nextIdx))
        (run P m initState).nextIdx = (bufs P (m + 1)).2.1
      rw [Function.update_same, ih1, ih2, ih3]
      rfl
    · show Function.update (run P m initState).store (run P m initState).nextIdx
        (stepGrid P m ((run P m initState).store (run P m initState).curIdx)
          ((run P m initState).store (run P m initState).prevIdx)
          ((run P m initState).store (run P m initState).nextIdx))
        (run P m initState).prevIdx = (bufs P (m + 1)).2.2
      rw [Function.update_noteq hd3]
      exact ih1

/-- The snapshot printed at the end of iteration `n` is the current level
at the start of iteration `n + 1`. -/
theorem snap_bufs (P : Coeffs) (n : ℕ) : snap P n = (bufs P (n + 1)).2.1 :=
  (run_bufs P (n + 1)).2.1

/-- The program's derived scalars and forcing on an `N × N` grid with the
source at the central node `((N-1)/2, (N-1)/2)`. -/
noncomputable def centered (N : ℕ) : Coeffs where
  nx := N
  ny := N
  xs := (N - 1) / 2
  ys := (N - 1) / 2
  thx := Ox * Ox
  thy := Oy * Oy
  Rx := (c * dt - dx) / (c * dt + dx)
  Ry := (c * dt - dy) / (c * dt + dy)
  f := source

/-- C9 amended: on an `N × N` grid with `N = 2k + 1` odd (`k ≥ 1`), the
source at the central node `(k, k)` and all-zero initial levels, every
node at Chebyshev distance `d` from the source is exactly zero at every
step `n < d`; the spec's threshold `d·min(dx,dy)/(c·dt) = d·√2` is
replaced by `d`, the bound the one-node-per-pass scheme actually obeys. -/
theorem C9_causality (N k : ℕ) (hN : N = 2 * k + 1) (hk : 1 ≤ k)
    (i j n : ℕ) (hn : n < chebDist i j k k) :
    snap (centered N) n i j = 0 := by
  have hxk : (centered N).xs = k := by
    show (N - 1) / 2 = k
    omega
  have hyk : (centered N).ys = k := by
    show (N - 1) / 2 = k
    omega
  have hsrc : srcInterior (centered N) := by
    refine ⟨?_, ?_, ?_, ?_, ?_, ?_⟩ <;> simp only [centered] <;> omega
  have hch := cheb_le_tau hsrc i j
  rw [hxk, hyk] at hch
  rw [snap_bufs]
  by_contra hz
  have hb := (bufs_support hsrc source_zero (n + 1)).1 i j hz
  omega

/-- Witness for the amended C9: node (7,4) of the centered 9×9 grid is at
Chebyshev distance 3 from the source (4,4) and still zero at step 2. -/
theorem C9_causality_witness : snap (centered 9) 2 7 4 = 0 :=
  C9_causality 9 4 (by norm_num) (by norm_num) 7 4 2 (by decide)

theorem centered9_src : srcInterior (centered 9) := by
  refine ⟨?_, ?_, ?_, ?_, ?_, ?_⟩ <;> decide

/-- Zero values of the centered 9×9 run before the wavefront arrives. -/
theorem snap9_far (n i j : ℕ) (h : n < tau (centered 9) i j) :
    snap (centered 9) n i j = 0 := by
  rw [snap_bufs]
  by_contra hz
  have hb := (bufs_support centered9_src source_zero (n + 1)).1 i j hz
  omega

theorem snap9_one :
    snap (centered 9) 1
      = stepGrid (centered 9) 1 (snap (centered 9) 0) zeroGrid
          ((bufs (centered 9) 1).2.2) := by
  rw [snap_bufs (centered 9) 1, snap_bufs (centered 9) 0]
  rfl

theorem snap9_eq (m : ℕ) :
    snap (centered 9) (m + 2)
      = stepGrid (centered 9) (m + 2) (snap (centered 9) (m + 1))
          (snap (centered 9) m) ((bufs (centered 9) (m + 2)).2.2) := by
  rw [snap_bufs (centered 9) (m + 2), snap_bufs (centered 9) (m + 1),
    snap_bufs (centered 9) m]
  rfl

/-- A full iteration writes the forcing value at a strictly interior
source node (boundary and corner passes do not touch it). -/
theorem stepGrid_src (P : Coeffs) (h3x : 3 ≤ P.nx) (h3y : 3 ≤ P.ny)
    (h1 : 1 ≤ P.xs) (h2 : P.xs ≤ P.nx - 2) (h3 : 1 ≤ P.ys) (h4 : P.ys ≤ P.ny - 2)
    (n : ℕ) (cur prev next0 : Grid) :
    stepGrid P n cur prev next0 P.xs P.ys = P.f n := by
  simp only [stepGrid]
  rw [cornerSweep_other (show ¬(P.xs = 0 ∧ P.ys = 0) by omega)
      (show ¬(P.xs = P.nx - 1 ∧ P.ys = 0) by omega)
      (show ¬(P.xs = P.nx - 1 ∧ P.ys = P.ny - 1) by omega)
      (show ¬(P.xs = 0 ∧ P.ys = P.ny - 1) by omega)]
  simp only [edgesSweep]
  rw [bottomSweep_other (show ¬(P.ys = 0 ∧ 1 ≤ P.xs ∧ P.xs < P.nx - 1) by omega),
    topSweep_other
      (show ¬(P.ys = P.ny - 1 ∧ 1 ≤ P.xs ∧ P.xs < P.nx - 1) by omega),
    rightSweep_other
      (show ¬(P.xs = P.nx - 1 ∧ 1 ≤ P.ys ∧ P.ys < P.ny - 1) by omega),
    leftSweep_other (show ¬(P.xs = 0 ∧ 1 ≤ P.ys ∧ P.ys < P.ny - 1) by omega)]
  exact sourceSweep_at

/-- A full iteration writes the plain stencil value at a strictly interior
non-source node. -/
theorem stepGrid_int (P : Coeffs) (h3x : 3 ≤ P.nx) (h3y : 3 ≤ P.ny)
    (i j : ℕ) (hi1 : 1 ≤ i) (hi2 : i < P.nx - 1) (hj1 : 1 ≤ j)
    (hj2 : j < P.ny - 1) (hs : ¬(i = P.xs ∧ j = P.ys)) (n : ℕ)
    (cur prev next0 : Grid) :
    stepGrid P n cur prev next0 i j
      = 2 * cur i j + P.thx * (cur (i + 1) j - 2 * cur i j + cur (i - 1) j)
        + P.thy * (cur i (j + 1) - 2 * cur i j + cur i (j - 1)) - prev i j := by
  simp only [stepGrid]
  rw [cornerSweep_other (show ¬(i = 0 ∧ j = 0) by omega)
      (show ¬(i = P.nx - 1 ∧ j = 0) by omega)
      (show ¬(i = P.nx - 1 ∧ j = P.ny - 1) by omega)
      (show ¬(i = 0 ∧ j = P.ny - 1) by omega)]
  simp only [edgesSweep]
  rw [bottomSweep_other (show ¬(j = 0 ∧ 1 ≤ i ∧ i < P.nx - 1) by omega),
    topSweep_other (show ¬(j = P.ny - 1 ∧ 1 ≤ i ∧ i < P.nx - 1) by omega),
    rightSweep_other (show ¬(i = P.nx - 1 ∧ 1 ≤ j ∧ j < P.ny - 1) by omega),
    leftSweep_other (show ¬(i = 0 ∧ 1 ≤ j ∧ j < P.ny - 1) by omega)]
  simp only [interiorAndSource]
  rw [sourceSweep_other hs, interiorSweep_in ⟨hi1, hi2, hj1, hj2⟩]

theorem snap9_1_src : snap (centered 9) 1 4 4 = source 1 := by
  rw [snap9_one]
  exact stepGrid_src (centered 9) (by decide) (by decide) (by decide) (by decide)
    (by decide) (by decide) 1 _ _ _

theorem snap9_2_54 : snap (centered 9) 2 5 4 = Ox * Ox * source 1 := by
  rw [snap9_eq 0]
  rw [stepGrid_int (centered 9) (by decide) (by decide) 5 4 (by decide) (by decide)
    (by decide) (by decide) (by decide) 2 _ _ _]
  have h44 : snap (centered 9) 1 (5 - 1) 4 = source 1 := snap9_1_src
  rw [snap9_far 1 5 4 (by decide), snap9_far 1 (5 + 1) 4 (by decide), h44,
    snap9_far 1 5 (4 + 1) (by decide), snap9_far 1 5 (4 - 1) (by decide),
    snap9_far 0 5 4 (by decide)]
  have hthx : (centered 9).thx = Ox * Ox := rfl
  have hthy : (centered 9).thy = Oy * Oy := rfl
  rw [hthx, hthy]
  ring

theorem snap9_3_64 : snap (centered 9) 3 6 4 = Ox * Ox * (Ox * Ox * source 1) := by
  rw [snap9_eq 1]
  rw [stepGrid_int (centered 9) (by decide) (by decide) 6 4 (by decide) (by decide)
    (by decide) (by decide) (by decide) 3 _ _ _]
  have h54 : snap (centered 9) 2 (6 - 1) 4 = Ox * Ox * source 1 := snap9_2_54
  rw [snap9_far 2 6 4 (by decide), snap9_far 2 (6 + 1) 4 (by decide), h54,
    snap9_far 2 6 (4 + 1) (by decide), snap9_far 2 6 (4 - 1) (by decide),
    snap9_far 1 6 4 (by decide)]
  have hthx : (centered 9).thx = Ox * Ox := rfl
  have hthy : (centered 9).thy = Oy * Oy := rfl
  rw [hthx, hthy]
  ring

theorem snap9_4_74 :
    snap (centered 9) 4 7 4 = Ox * Ox * (Ox * Ox * (Ox * Ox * source 1)) := by
  rw [snap9_eq 2]
  rw [stepGrid_int (centered 9) (by decide) (by decide) 7 4 (by decide) (by decide)
    (by decide) (by decide) (by decide) 4 _ _ _]
  have h64 : snap (centered 9) 3 (7 - 1) 4 = Ox * Ox * (Ox * Ox * source 1) :=
    snap9_3_64
  rw [snap9_far 3 7 4 (by decide), snap9_far 3 (7 + 1) 4 (by decide), h64,
    snap9_far 3 7 (4 + 1) (by decide), snap9_far 3 7 (4 - 1) (by decide),
    snap9_far 2 7 4 (by decide)]
  have hthx : (centered 9).thx = Ox * Ox := rfl
  have hthy : (centered 9).thy = Oy * Oy := rfl
  rw [hthx, hthy]
  ring

/-! ### C9: numeric facts about the program constants -/

theorem sqrt2_sq : Real.sqrt 2 * Real.sqrt 2 = 2 :=
  Real.mul_self_sqrt (by norm_num)

theorem sqrt2_pos : (0:ℝ) < Real.sqrt 2 :=
  Real.sqrt_pos.mpr (by norm_num)

theorem sqrt2_ge_one : (1:ℝ) ≤ Real.sqrt 2 := by
  nlinarith [sqrt2_sq, sqrt2_pos]

theorem dx_pos : (0:ℝ) < dx := by
  rw [dx]
  norm_num

theorem c_pos : (0:ℝ) < c := by
  rw [c]
  norm_num

/-- With `dx = dy`, the CFL time step of the program gives
`c·dt = dx/√2`. -/
theorem c_mul_dt : c * dt = dx / Real.sqrt 2 := by
  rw [dt, show dy = dx from rfl]
  have hsum : 1.0 / (dx * dx) + 1.0 / (dx * dx) = 2 / (dx * dx) := by
    ring
  rw [hsum]
  have hsq : (2:ℝ) / (dx * dx) = (Real.sqrt 2 / dx) ^ 2 := by
    rw [div_pow, pow_two, pow_two, sqrt2_sq]
  have hsqrt : Real.sqrt (2 / (dx * dx)) = Real.sqrt 2 / dx := by
    rw [hsq, Real.sqrt_sq (div_nonneg (Real.sqrt_nonneg 2) dx_pos.le)]
  rw [hsqrt]
  field_simp
  rw [div_eq_iff (mul_pos c_pos sqrt2_pos).ne']
  ring

theorem Ox_sq : Ox * Ox = 1 / 2 := by
  rw [Ox, c_mul_dt]
  have h1 : dx / Real.sqrt 2 / dx = 1 / Real.sqrt 2 := by
    rw [div_right_comm, div_self dx_pos.ne']
  rw [h1, div_mul_div_comm, sqrt2_sq, one_mul]

/-- The forcing is strictly positive at step 1: the Gaussian factor is
positive and the `sin` argument `2π·(c·dt)/λ = π·(0.24/√2)` lies strictly
between `0` and `π`. -/
theorem source_one_pos : 0 < source 1 := by
  rw [source, sourceAmp, amplitude]
  have harg : 2 * Real.pi * c / l * (((1:ℕ):ℝ) * dt)
      = Real.pi * (0.24 / Real.sqrt 2) := by
    have h1 : 2 * Real.pi * c / l * (((1:ℕ):ℝ) * dt)
        = 2 * Real.pi * (c * dt) / l := by
      push_cast
      ring
    rw [h1, c_mul_dt, dx, l]
    field_simp
    ring_nf
  rw [harg]
  have hsin : 0 < Real.sin (Real.pi * (0.24 / Real.sqrt 2)) := by
    apply Real.sin_pos_of_pos_of_lt_pi
    · exact mul_pos Real.pi_pos (div_pos (by norm_num) sqrt2_pos)
    · have hlt : (0.24:ℝ) / Real.sqrt 2 < 1 :=
        (div_lt_one sqrt2_pos).mpr (lt_of_lt_of_le (by norm_num) sqrt2_ge_one)
      exact mul_lt_of_lt_one_right Real.pi_pos hlt
  have hexp := Real.exp_pos (-((((1:ℕ):ℝ) * dt - T0) / (w / 2)) ^ 2)
  positivity

/-- The spec's causality threshold evaluates to `d·√2`, and `4 < 3·√2`. -/
theorem threshold_gt_four : (4:ℝ) < 3 * (min dx dy / (c * dt)) := by
  rw [show min dx dy = dx from by rw [show dy = dx from rfl, min_self],
    c_mul_dt]
  have h1 : dx / (dx / Real.sqrt 2) = Real.sqrt 2 := by
    rw [div_div_eq_mul_div, mul_comm, mul_div_assoc,
      div_self dx_pos.ne', mul_one]
  rw [h1]
  nlinarith [sqrt2_sq, sqrt2_pos]

/-- C9 counterexample: on the centered 9×9 grid with all-zero initial
levels, node (7,4) lies at Chebyshev distance d = 3 from the source
(4,4); the step index n = 4 satisfies n < d·min(dx,dy)/(c·dt) = 3·√2,
yet the field at (7,4) after step 4 equals `(1/2)³·source(1) ≠ 0` — the
claimed bound fails. -/
theorem C9_counterexample :
    chebDist 7 4 ((centered 9).xs) ((centered 9).ys) = 3 ∧
    ((4:ℕ):ℝ) < (chebDist 7 4 ((centered 9).xs) ((centered 9).ys) : ℝ)
      * (min dx dy / (c * dt)) ∧
    snap (centered 9) 4 7 4 ≠ 0 := by
  have hch : chebDist 7 4 ((centered 9).xs) ((centered 9).ys) = 3 := by decide
  refine ⟨hch, ?_, ?_⟩
  · rw [hch]
    push_cast
    exact threshold_gt_four
  · rw [snap9_4_74, Ox_sq]
    have hs1 := source_one_pos
    intro h0
    nlinarith [hs1]

end WaveSim
